import Mathlib

/-!
Shallow embedding of the hotkey-registry and priority-ordering core of
`src/main.py` (UrlShortCut).  Python floats are modelled as exact
rationals (`ℚ`); Python dicts keyed by strings as association lists
kept in insertion order; the `keyboard` library backend is modelled by
the in-process tracking structures the code itself maintains
(`self.hotkey_actions`, the debounce timestamp).  A missing or falsy
optional string field (`sc.get("hotkey")`, `sc.get("url")`) is
modelled by the empty string, matching the code's truthiness checks;
a `priority` key that may be absent is modelled by `Option ℚ`.
-/

namespace UrlShortCut

/-- A shortcut record: the dicts stored in `self.shortcuts`.  An empty
`hotkey` or `url` models a missing/falsy field; `priority` is `none`
when the `priority` key is absent. -/
structure ShortcutRecord where
  id : String
  name : String
  url : String
  hotkey : String
  category : String
  priority : Option ℚ
  iconPath : String
deriving DecidableEq, Repr

/-- Fallback record used only as the `List.getD` default in statements. -/
def dummyRecord : ShortcutRecord := ⟨"", "", "", "", "", none, ""⟩

/-- Reading `current_view_items_data[i].get('priority', d)` in
`on_shortcut_item_reordered` (the index is always in range on the
code's control paths; out of range we return the default). -/
def viewPrio (view : List ShortcutRecord) (i : Nat) (d : ℚ) : ℚ :=
  match view.get? i with
  | some r => r.priority.getD d
  | none => d

/-- The priority a record contributes to the sorted view,
`sc.get('priority', 0.0)`. -/
def prio0 (r : ShortcutRecord) : ℚ := r.priority.getD 0

/-- Lines 1484-1500 of `on_shortcut_item_reordered`: the computed
`new_priority` before the neighbour-conflict check.  `view` is the
category-filtered list in its visual order with the moved item already
at index `k` (`actual_new_row_in_filtered_list`). -/
def rawNewPriority (view : List ShortcutRecord) (k : Nat) : ℚ :=
  let n := view.length
  if n = 1 then 1
  else if k = 0 then
    let pAfter := viewPrio view 1 2
    let np := pAfter / 2
    let np2 := if np ≤ 0 then pAfter - 1/2 else np
    if np2 ≤ 0 then 1/1000 else np2
  else if k = n - 1 then
    viewPrio view (n - 2) 0 + 1
  else
    (viewPrio view (k - 1) 0 + viewPrio view (k + 1) 0) / 2

/-- Lines 1502-1509: the collision check of the computed value against
both new neighbours with tolerance `epsilon = 0.00001`. -/
def hasConflict (view : List ShortcutRecord) (k : Nat) (np : ℚ) : Bool :=
  (decide (0 < k) && decide (|np - viewPrio view (k - 1) 0| < 1/100000)) ||
  (decide (k < view.length - 1) && decide (|np - viewPrio view (k + 1) 0| < 1/100000))

/-- Lines 1484-1520: the full priority computation of
`on_shortcut_item_reordered`, including the conflict nudge
(lines 1511-1520). -/
def reprioritize (view : List ShortcutRecord) (k : Nat) : ℚ :=
  let np := rawNewPriority view k
  if hasConflict view k np then
    if 0 < k then viewPrio view (k - 1) 0 + 1/2
    else if 1 < view.length then
      let np2 := viewPrio view (k + 1) 0 - 1/2
      if np2 ≤ 0 then viewPrio view (k + 1) 0 / 2 else np2
    else 1
  else np

/-- Modelled from the spec wording of §4.2 steps 2-5 (claim C1): sole
item gets `1.0`; first gets half the successor's priority, falling back
to `successor - 0.5` when non-positive and clamping to `0.001` when
still non-positive; last gets `predecessor + 1.0`; otherwise the
arithmetic mean of predecessor and successor.  Stated over the list of
the view's priorities; to be compared with `rawNewPriority`. -/
def specAssignedPriority (prios : List ℚ) (k : Nat) : ℚ :=
  if prios.length = 1 then 1
  else if k = 0 then
    let s := prios.getD 1 0
    if 0 < s / 2 then s / 2
    else if 0 < s - 1/2 then s - 1/2
    else 1/1000
  else if k = prios.length - 1 then prios.getD (k - 1) 0 + 1
  else (prios.getD (k - 1) 0 + prios.getD (k + 1) 0) / 2

/-- Lines 1522-1526: write the new priority back into the first record
of `self.shortcuts` whose `id` matches the dropped item (the loop
breaks after the first hit). -/
def updateMovedPriority (shortcuts : List ShortcutRecord) (movedId : String)
    (p : ℚ) : List ShortcutRecord :=
  match shortcuts with
  | [] => []
  | sc :: rest =>
    if sc.id = movedId then { sc with priority := some p } :: rest
    else sc :: updateMovedPriority rest movedId p

lemma viewPrio_eq_map_getD (view : List ShortcutRecord)
    (hp : ∀ r ∈ view, (r.priority).isSome) (i : Nat) (d : ℚ) :
    viewPrio view i d = (view.map prio0).getD i d := by
  unfold viewPrio
  rcases hv : view.get? i with _ | r
  · rw [List.getD_eq_getElem?_getD]
    simp only [List.getElem?_map]
    rw [List.get?_eq_getElem?] at hv
    simp [hv]
  · rw [List.getD_eq_getElem?_getD]
    simp only [List.getElem?_map]
    rw [List.get?_eq_getElem?] at hv
    simp only [hv, Option.map_some, Option.getD_some]
    have hr : r ∈ view := by
      have := List.getElem?_mem hv
      exact this
    rcases Option.isSome_iff_exists.mp (hp r hr) with ⟨q, hq⟩
    simp [prio0, hq]

lemma getD_default_irrelevant (l : List ℚ) (i : Nat) (hi : i < l.length)
    (d₁ d₂ : ℚ) : l.getD i d₁ = l.getD i d₂ := by
  rw [List.getD_eq_getElem?_getD, List.getD_eq_getElem?_getD,
    List.getElem?_eq_getElem hi]
  rfl

/-- The raw computation of lines 1484-1500 agrees with the spec's
step-by-step description (§4.2 steps 2-5) whenever every record in the
view carries a priority. -/
lemma rawNewPriority_eq_spec (view : List ShortcutRecord) (k : Nat)
    (hk : k < view.length) (hp : ∀ r ∈ view, (r.priority).isSome) :
    rawNewPriority view k = specAssignedPriority (view.map prio0) k := by
  have hv : ∀ i d, viewPrio view i d = (view.map prio0).getD i d :=
    fun i d => viewPrio_eq_map_getD view hp i d
  have hlen : (view.map prio0).length = view.length := List.length_map view prio0
  simp only [rawNewPriority, specAssignedPriority, hv, hlen]
  by_cases h1 : view.length = 1
  · simp [h1]
  · by_cases h0 : k = 0
    · have h2 : 1 < view.length := by omega
      have hd : (view.map prio0).getD 1 2 = (view.map prio0).getD 1 0 :=
        getD_default_irrelevant _ 1 (by omega) 2 0
      simp only [h1, if_false, h0, if_true, hd]
      split_ifs <;> first | rfl | linarith
    · by_cases hlast : k = view.length - 1
      · have hne : view.length - 1 ≠ 0 := by omega
        have hsub : view.length - 1 - 1 = view.length - 2 := by omega
        simp [h1, h0, hlast, hne, hsub]
      · simp [h1, h0, hlast]

/-- Concrete record with id `A` and priority `1.0` (spec scenario). -/
def recA : ShortcutRecord := ⟨"A", "A", "urlA", "", "c", some 1, ""⟩

/-- Concrete record with id `B` and priority `2.0` (spec scenario). -/
def recB : ShortcutRecord := ⟨"B", "B", "urlB", "", "c", some 2, ""⟩

/-- C1: for an ordered view with the moved item already relocated, the
reprioritize computation assigns `1.0` to a sole item, half the
successor's priority to a first item (falling back to
`successor - 0.5`, then clamping to `0.001`, when non-positive),
`predecessor + 1.0` to a last item, and the mean of the two neighbours
otherwise; in particular the view `[B:2.0, A:1.0]` with `B` moved to
index `0` yields `0.5`, and the singleton view `[A:1.0]` yields
`1.0`. -/
theorem c1_reprioritize_formula :
    (∀ (view : List ShortcutRecord) (k : Nat), k < view.length →
        (∀ r ∈ view, (r.priority).isSome) →
        rawNewPriority view k = specAssignedPriority (view.map prio0) k)
    ∧ reprioritize [recB, recA] 0 = 1/2
    ∧ reprioritize [recA] 0 = 1 := by
  refine ⟨fun view k hk hp => rawNewPriority_eq_spec view k hk hp, ?_, ?_⟩
  · norm_num [reprioritize, rawNewPriority, hasConflict, viewPrio, recA, recB,
      abs_sub_lt_iff]
  · norm_num [reprioritize, rawNewPriority, hasConflict, viewPrio, recA]

/-- Witness for C1: the universally quantified part instantiated at the
singleton view `[A:1.0]` with `k = 0`, its hypotheses discharged
concretely. -/
theorem c1_reprioritize_formula_witness :
    0 < ([recA] : List ShortcutRecord).length ∧
    rawNewPriority [recA] 0 = specAssignedPriority ([recA].map prio0) 0 :=
  ⟨by decide, c1_reprioritize_formula.1 [recA] 0 (by decide) (by decide)⟩

lemma updateMovedPriority_length (scs : List ShortcutRecord)
    (movedId : String) (p : ℚ) :
    (updateMovedPriority scs movedId p).length = scs.length := by
  induction scs with
  | nil => rfl
  | cons sc rest ih =>
    by_cases h : sc.id = movedId <;> simp [updateMovedPriority, h, ih]

lemma updateMovedPriority_getD (scs : List ShortcutRecord)
    (movedId : String) (p : ℚ) (i : Nat) :
    ((updateMovedPriority scs movedId p).getD i dummyRecord).id
        = (scs.getD i dummyRecord).id ∧
    ((updateMovedPriority scs movedId p).getD i dummyRecord).name
        = (scs.getD i dummyRecord).name ∧
    ((updateMovedPriority scs movedId p).getD i dummyRecord).url
        = (scs.getD i dummyRecord).url ∧
    ((updateMovedPriority scs movedId p).getD i dummyRecord).hotkey
        = (scs.getD i dummyRecord).hotkey ∧
    ((updateMovedPriority scs movedId p).getD i dummyRecord).category
        = (scs.getD i dummyRecord).category ∧
    ((updateMovedPriority scs movedId p).getD i dummyRecord).iconPath
        = (scs.getD i dummyRecord).iconPath ∧
    ((scs.getD i dummyRecord).id ≠ movedId →
      (updateMovedPriority scs movedId p).getD i dummyRecord
        = scs.getD i dummyRecord) := by
  induction scs generalizing i with
  | nil => simp [updateMovedPriority]
  | cons sc rest ih =>
    by_cases h : sc.id = movedId
    · cases i with
      | zero => simp [updateMovedPriority, h, List.getD_cons_zero]
      | succ j => simp [updateMovedPriority, h, List.getD_cons_succ]
    · cases i with
      | zero => simp [updateMovedPriority, h, List.getD_cons_zero]
      | succ j =>
        simpa [updateMovedPriority, h, List.getD_cons_succ] using ih j

/-- C9: the write-back step of a drag-drop reorder (lines 1522-1526)
changes only the moved record's `priority`: the list keeps its length,
every record at an index whose id differs from the moved id is exactly
unchanged, and at every index all fields other than `priority`
agree with the original. -/
theorem c9_reorder_frame (scs : List ShortcutRecord) (movedId : String)
    (p : ℚ) :
    (updateMovedPriority scs movedId p).length = scs.length ∧
    ∀ i : Nat,
      ((updateMovedPriority scs movedId p).getD i dummyRecord).id
          = (scs.getD i dummyRecord).id ∧
      ((updateMovedPriority scs movedId p).getD i dummyRecord).name
          = (scs.getD i dummyRecord).name ∧
      ((updateMovedPriority scs movedId p).getD i dummyRecord).url
          = (scs.getD i dummyRecord).url ∧
      ((updateMovedPriority scs movedId p).getD i dummyRecord).hotkey
          = (scs.getD i dummyRecord).hotkey ∧
      ((updateMovedPriority scs movedId p).getD i dummyRecord).category
          = (scs.getD i dummyRecord).category ∧
      ((updateMovedPriority scs movedId p).getD i dummyRecord).iconPath
          = (scs.getD i dummyRecord).iconPath ∧
      ((scs.getD i dummyRecord).id ≠ movedId →
        (updateMovedPriority scs movedId p).getD i dummyRecord
          = scs.getD i dummyRecord) :=
  ⟨updateMovedPriority_length scs movedId p,
   fun i => updateMovedPriority_getD scs movedId p i⟩

/-- Witness for C9: the frame property applied to a concrete two-record
list at index `0`, whose record is not the moved one, with the inner
hypothesis discharged concretely. -/
theorem c9_reorder_frame_witness :
    ((([recA, recB].getD 0 dummyRecord).id ≠ "B") →
      (updateMovedPriority [recA, recB] "B" 7).getD 0 dummyRecord
        = [recA, recB].getD 0 dummyRecord) ∧
    (updateMovedPriority [recA, recB] "B" 7).getD 0 dummyRecord
        = [recA, recB].getD 0 dummyRecord :=
  ⟨((c9_reorder_frame [recA, recB] "B" 7).2 0).2.2.2.2.2.2,
   ((c9_reorder_frame [recA, recB] "B" 7).2 0).2.2.2.2.2.2 (by decide)⟩

lemma chain'_set_of_bounds (l : List ℚ) (k : Nat) (p : ℚ)
    (hk : k < l.length)
    (he : List.Chain' (· < ·) (l.eraseIdx k))
    (h1 : ∀ a ∈ (l.take k).getLast?, a < p)
    (h2 : ∀ b ∈ (l.drop (k + 1)).head?, p < b) :
    List.Chain' (· < ·) (l.set k p) := by
  rw [List.set_eq_take_append_cons_drop, if_pos hk]
  rw [List.eraseIdx_eq_take_drop_succ, List.chain'_append] at he
  obtain ⟨ht, hd, _⟩ := he
  rw [List.chain'_append]
  refine ⟨ht, ?_, ?_⟩
  · rw [List.chain'_cons']
    exact ⟨h2, hd⟩
  · intro x hx y hy
    simp only [List.head?_cons, Option.mem_def, Option.some.injEq] at hy
    subst hy
    exact h1 x hx

lemma getElem_mem_eraseIdx_of_lt (l : List ℚ) (i k : Nat) (hik : i < k)
    (hi : i < l.length) : l.getD i 0 ∈ l.eraseIdx k := by
  rw [List.eraseIdx_eq_take_drop_succ]
  refine List.mem_append.mpr (Or.inl ?_)
  refine List.getElem?_mem (l := l.take k) (n := i) ?_
  rw [List.getElem?_take, if_pos hik, List.getElem?_eq_getElem hi,
    List.getD_eq_getElem l 0 hi]

lemma getElem_mem_eraseIdx_of_gt (l : List ℚ) (i k : Nat) (hik : k < i)
    (hi : i < l.length) : l.getD i 0 ∈ l.eraseIdx k := by
  rw [List.eraseIdx_eq_take_drop_succ]
  refine List.mem_append.mpr (Or.inr ?_)
  refine List.getElem?_mem (l := l.drop (k + 1)) (n := i - (k + 1)) ?_
  rw [List.getElem?_drop]
  have hidx : k + 1 + (i - (k + 1)) = i := by omega
  rw [hidx, List.getElem?_eq_getElem hi, List.getD_eq_getElem l 0 hi]

lemma getLast?_take_of_pos (l : List ℚ) (k : Nat) (hk0 : k ≠ 0)
    (hk : k - 1 < l.length) :
    (l.take k).getLast? = some (l.getD (k - 1) 0) := by
  rw [List.getLast?_take, if_neg hk0, List.getElem?_eq_getElem hk,
    List.getD_eq_getElem l 0 hk]
  rfl

/-- C3 (amended): for every ordered view of size `n ≥ 1` whose
non-moved records carry pairwise strictly increasing positive
priorities, and every target index `k` in `[0, n)`, provided the
computed value does not collide with a neighbour within the `1e-5`
tolerance (so the conflict nudge of lines 1511-1520 does not fire),
`reprioritize` returns a positive value strictly between its immediate
neighbours' priorities (or a valid boundary value at the ends):
substituting it at index `k` leaves the whole priority list strictly
ascending, so re-sorting reproduces the user's arrangement. -/
theorem c3_amended_strictly_between (view : List ShortcutRecord) (k : Nat)
    (hk : k < view.length)
    (hp : ∀ r ∈ view, (r.priority).isSome)
    (hpos : ∀ q ∈ (view.map prio0).eraseIdx k, 0 < q)
    (hsort : List.Chain' (· < ·) ((view.map prio0).eraseIdx k))
    (hnc : hasConflict view k (rawNewPriority view k) = false) :
    0 < reprioritize view k ∧
    List.Chain' (· < ·) ((view.map prio0).set k (reprioritize view k)) := by
  have hrepr : reprioritize view k = rawNewPriority view k := by
    simp [reprioritize, hnc]
  rw [hrepr, rawNewPriority_eq_spec view k hk hp]
  set l := view.map prio0 with hldef
  have hlen : l.length = view.length := List.length_map view prio0
  have hk' : k < l.length := by omega
  by_cases h1 : l.length = 1
  · -- sole item: value 1, singleton list
    have hk0 : k = 0 := by omega
    subst hk0
    have hval : specAssignedPriority l 0 = 1 := by
      rw [specAssignedPriority, if_pos h1]
    rw [hval]
    obtain ⟨a, ha⟩ := List.length_eq_one.mp h1
    rw [ha]
    exact ⟨one_pos, by simp⟩
  · by_cases h0 : k = 0
    · -- moved to the beginning: half of the successor
      subst h0
      have h1n : 1 < l.length := by omega
      have hs : l.getD 1 0 = l[1] := List.getD_eq_getElem l 0 h1n
      have hmem : l.getD 1 0 ∈ l.eraseIdx 0 :=
        getElem_mem_eraseIdx_of_gt l 1 0 (by omega) h1n
      have hspos : 0 < l.getD 1 0 := hpos _ hmem
      have hval : specAssignedPriority l 0 = l.getD 1 0 / 2 := by
        rw [specAssignedPriority, if_neg h1, if_pos rfl]
        rw [if_pos (by linarith)]
      rw [hval]
      refine ⟨by linarith, ?_⟩
      refine chain'_set_of_bounds l 0 _ hk' hsort ?_ ?_
      · simp
      · intro b hb
        simp only [List.head?_drop, List.getElem?_eq_getElem h1n,
          Option.mem_def, Option.some.injEq] at hb
        subst hb
        rw [hs]
        linarith [half_lt_self hspos]
    · by_cases hlast : k = l.length - 1
      · -- moved to the end: predecessor + 1
        have hke : k - 1 < l.length := by omega
        have hmem : l.getD (k - 1) 0 ∈ l.eraseIdx k :=
          getElem_mem_eraseIdx_of_lt l (k - 1) k (by omega) hke
        have hppos : 0 < l.getD (k - 1) 0 := hpos _ hmem
        have hval : specAssignedPriority l k = l.getD (k - 1) 0 + 1 := by
          rw [specAssignedPriority, if_neg h1, if_neg h0, if_pos hlast]
        rw [hval]
        refine ⟨by linarith, ?_⟩
        refine chain'_set_of_bounds l k _ hk' hsort ?_ ?_
        · intro a ha
          rw [getLast?_take_of_pos l k h0 hke] at ha
          simp only [Option.mem_def, Option.some.injEq] at ha
          subst ha
          linarith
        · intro b hb
          have hnone : l[k + 1]? = none :=
            List.getElem?_eq_none (by omega)
          simp [List.head?_drop, hnone] at hb
      · -- moved between two items: the mean
        have hke : k - 1 < l.length := by omega
        have hk1 : k + 1 < l.length := by omega
        have hmemp : l.getD (k - 1) 0 ∈ l.eraseIdx k :=
          getElem_mem_eraseIdx_of_lt l (k - 1) k (by omega) hke
        have hppos : 0 < l.getD (k - 1) 0 := hpos _ hmemp
        have hless : l.getD (k - 1) 0 < l.getD (k + 1) 0 := by
          have hsort2 := hsort
          rw [List.eraseIdx_eq_take_drop_succ, List.chain'_append] at hsort2
          obtain ⟨-, -, hcross⟩ := hsort2
          have ha := getLast?_take_of_pos l k h0 hke
          have hb : (l.drop (k + 1)).head? = some (l.getD (k + 1) 0) := by
            rw [List.head?_drop, List.getElem?_eq_getElem hk1,
              List.getD_eq_getElem l 0 hk1]
          exact hcross _ (by rw [ha]; rfl) _ (by rw [hb]; rfl)
        have hval : specAssignedPriority l k
            = (l.getD (k - 1) 0 + l.getD (k + 1) 0) / 2 := by
          rw [specAssignedPriority, if_neg h1, if_neg h0, if_neg hlast]
        rw [hval]
        refine ⟨by linarith, ?_⟩
        refine chain'_set_of_bounds l k _ hk' hsort ?_ ?_
        · intro a ha
          rw [getLast?_take_of_pos l k h0 hke] at ha
          simp only [Option.mem_def, Option.some.injEq] at ha
          subst ha
          linarith
        · intro b hb
          have hbs : (l.drop (k + 1)).head? = some (l.getD (k + 1) 0) := by
            rw [List.head?_drop, List.getElem?_eq_getElem hk1,
              List.getD_eq_getElem l 0 hk1]
          rw [hbs] at hb
          simp only [Option.mem_def, Option.some.injEq] at hb
          subst hb
          linarith

/-- Concrete moved record used in the C3 scenario and counterexample. -/
def recM : ShortcutRecord := ⟨"M", "M", "urlM", "", "c", some 5, ""⟩

/-- Record whose priority `1.00001` sits within the collision tolerance
of its predecessor's mean. -/
def recBclose : ShortcutRecord := ⟨"B", "B", "urlB", "", "c", some (100001/100000), ""⟩

/-- The adversarial ordered view of the C3 counterexample: `M` has been
moved between neighbours with priorities `1.0` and `1.00001`. -/
def cView : List ShortcutRecord := [recA, recM, recBclose]

/-- C3 counterexample: in the view `[A:1.0, M, B:1.00001]` with `M`
moved to index `1`, the non-moved priorities are strictly ascending,
yet the conflict nudge returns `1.5`, which is not strictly below the
successor's priority `1.00001` — re-sorting would put `M` after `B`,
contradicting the claim. -/
theorem c3_counterexample :
    (cView.map prio0).eraseIdx 1 = [1, 100001/100000] ∧
    List.Chain' (· < ·) [(1 : ℚ), 100001/100000] ∧
    reprioritize cView 1 = 3/2 ∧
    ¬ (3/2 < prio0 (cView.getD 2 dummyRecord)) := by
  refine ⟨by norm_num [cView, recA, recM, recBclose, prio0], ?_, ?_, ?_⟩
  · rw [List.chain'_cons']
    refine ⟨?_, List.chain'_singleton _⟩
    intro y hy
    simp only [List.head?_cons, Option.mem_def, Option.some.injEq] at hy
    subst hy
    norm_num
  · have hraw : rawNewPriority cView 1 = 200001/200000 := by
      norm_num [rawNewPriority, viewPrio, cView, recA, recM, recBclose]
    have hv0 : viewPrio cView 0 0 = 1 := by norm_num [viewPrio, cView, recA]
    have habs : |(200001/200000 : ℚ) - viewPrio cView 0 0| < (100000:ℚ)⁻¹ := by
      rw [hv0, show (200001/200000 : ℚ) - 1 = 1/200000 by norm_num,
        abs_of_nonneg (by norm_num : (0:ℚ) ≤ 1/200000)]
      norm_num
    have hc : hasConflict cView 1 (rawNewPriority cView 1) = true := by
      rw [hraw]
      simp [hasConflict]
      exact Or.inl habs
    simp only [reprioritize, hc, if_true]
    norm_num [viewPrio, cView, recA]
  · norm_num [cView, recBclose, prio0, dummyRecord]

/-- Witness for the amended C3 theorem: the view `[A:1.0, M:5.0, B:2.0]`
with `M` moved to index `1`; all hypotheses hold concretely and the
returned mean `1.5` keeps the list strictly ascending. -/
theorem c3_amended_strictly_between_witness :
    (1 < ([recA, recM, recB] : List ShortcutRecord).length) ∧
    (0 < reprioritize [recA, recM, recB] 1 ∧
      List.Chain' (· < ·)
        (([recA, recM, recB].map prio0).set 1 (reprioritize [recA, recM, recB] 1))) :=
  ⟨by decide,
   c3_amended_strictly_between [recA, recM, recB] 1 (by decide) (by decide)
     (by
       have h : (([recA, recM, recB].map prio0).eraseIdx 1) = [(1:ℚ), 2] := by
         norm_num [recA, recM, recB, prio0]
       rw [h]
       intro q hq
       rcases List.mem_cons.mp hq with h1 | hq2
       · rw [h1]; norm_num
       · rcases List.mem_cons.mp hq2 with h2 | h3
         · rw [h2]; norm_num
         · cases h3)
     (by
       have h : (([recA, recM, recB].map prio0).eraseIdx 1) = [(1:ℚ), 2] := by
         norm_num [recA, recM, recB, prio0]
       rw [h, List.chain'_cons']
       refine ⟨?_, List.chain'_singleton _⟩
       intro y hy
       simp only [List.head?_cons, Option.mem_def, Option.some.injEq] at hy
       subst hy
       norm_num)
     (by
       have hraw : rawNewPriority [recA, recM, recB] 1 = 3/2 := by
         norm_num [rawNewPriority, viewPrio, recA, recM, recB]
       have h1 : (100000:ℚ)⁻¹ ≤ |(3:ℚ)/2 - viewPrio [recA, recM, recB] 0 0| := by
         have hv : viewPrio [recA, recM, recB] 0 0 = 1 := by
           norm_num [viewPrio, recA]
         rw [hv, show (3:ℚ)/2 - 1 = 1/2 by norm_num,
           abs_of_nonneg (by norm_num : (0:ℚ) ≤ 1/2)]
         norm_num
       have h2 : (100000:ℚ)⁻¹ ≤ |(3:ℚ)/2 - viewPrio [recA, recM, recB] 2 0| := by
         have hv : viewPrio [recA, recM, recB] 2 0 = 2 := by
           norm_num [viewPrio, recB]
         rw [hv, show (3:ℚ)/2 - 2 = -(1/2) by norm_num, abs_neg,
           abs_of_nonneg (by norm_num : (0:ℚ) ≤ 1/2)]
         norm_num
       rw [hraw]
       simp [hasConflict]
       exact ⟨h1, h2⟩)⟩

/-! Hotkey registry.

`self.hotkey_actions` is a dict from hotkey string to the callback
closure; the closure captures only the item's url (line 1853), so the
action is modelled by that url.  Dict insertion order is modelled by an
association list; `keyboard.add_hotkey` / `remove_hotkey` succeed in
this model (their failure is an external-library concern the tracking
dict mirrors). -/

/-- The hotkey strings currently bound (the dict's key set, in
insertion order). -/
def keysOf (t : List (String × String)) : List String := t.map Prod.fst

/-- Lines 1833-1860, `register_item_hotkey`: skip when the record has
no hotkey or no url, when the string is already registered, or when it
equals the (non-empty) global show-window hotkey; otherwise bind it. -/
def registerItemHotkey (g : String) (t : List (String × String))
    (sc : ShortcutRecord) : List (String × String) :=
  if sc.hotkey = "" ∨ sc.url = "" then t
  else if sc.hotkey ∈ keysOf t then t
  else if sc.hotkey = g ∧ g ≠ "" then t
  else t ++ [(sc.hotkey, sc.url)]

/-- Lines 1437-1444, `register_all_item_hotkeys`: unregister every
tracked hotkey (leaving the empty table) and re-register every record
in list order. -/
def registerAllItemHotkeys (g : String) (shortcuts : List ShortcutRecord) :
    List (String × String) :=
  shortcuts.foldl (registerItemHotkey g) []

/-- Lines 1862-1873, `unregister_hotkey`: no-op for an empty or
untracked string, otherwise remove the binding. -/
def unregisterHotkey (t : List (String × String)) (h : String) :
    List (String × String) :=
  if h = "" ∨ h ∉ keysOf t then t
  else t.eraseP (fun p => p.1 == h)

/-- First tracked binding for a hotkey string, if any. -/
def tableLookup (t : List (String × String)) (h : String) : Option String :=
  (t.find? (fun p => p.1 == h)).map Prod.snd

/-- A record that would claim hotkey `h` during reconciliation under
global hotkey `g`: it stores `h`, has a url, and `h` collides with
neither the empty string nor the active global hotkey. -/
def claims (g h : String) (sc : ShortcutRecord) : Bool :=
  decide (sc.hotkey = h ∧ h ≠ "" ∧ sc.url ≠ "" ∧ ¬(h = g ∧ g ≠ ""))

lemma tableLookup_append (t s : List (String × String)) (h : String) :
    tableLookup (t ++ s) h = (tableLookup t h).or (tableLookup s h) := by
  unfold tableLookup
  rw [List.find?_append]
  cases t.find? (fun p => p.1 == h) <;> simp

lemma tableLookup_eq_none (t : List (String × String)) (h : String) :
    tableLookup t h = none ↔ h ∉ keysOf t := by
  unfold tableLookup keysOf
  rw [Option.map_eq_none', List.find?_eq_none]
  constructor
  · intro hf hmem
    rw [List.mem_map] at hmem
    obtain ⟨p, hp, hh⟩ := hmem
    have hne := hf p hp
    rw [beq_iff_eq] at hne
    exact hne hh
  · intro hn p hp
    simp only [beq_iff_eq]
    intro he
    exact hn (List.mem_map.mpr ⟨p, hp, he⟩)

lemma tableLookup_single_ne (h k u : String) (hne : k ≠ h) :
    tableLookup [(k, u)] h = none := by
  unfold tableLookup
  rw [List.find?_cons_of_neg]
  · rfl
  · simp [hne]

lemma tableLookup_single_eq (h u : String) :
    tableLookup [(h, u)] h = some u := by
  unfold tableLookup
  rw [List.find?_cons_of_pos]
  · rfl
  · simp

lemma registerFold_keys_nodup (g : String) (scs : List ShortcutRecord) :
    ∀ t : List (String × String), (keysOf t).Nodup →
      (keysOf (scs.foldl (registerItemHotkey g) t)).Nodup := by
  induction scs with
  | nil => intro t ht; simpa using ht
  | cons sc rest ih =>
    intro t ht
    rw [List.foldl_cons]
    refine ih _ ?_
    unfold registerItemHotkey
    split_ifs with h1 h2 h3
    · exact ht
    · exact ht
    · exact ht
    · unfold keysOf
      rw [List.map_append]
      simp only [List.map_cons, List.map_nil]
      exact List.nodup_append.mpr ⟨ht, List.nodup_singleton _,
        by simpa [keysOf] using h2⟩

lemma registerFold_lookup (g : String) (scs : List ShortcutRecord) :
    ∀ (t : List (String × String)) (h : String),
      tableLookup (scs.foldl (registerItemHotkey g) t) h
        = (tableLookup t h).or
            ((scs.find? (claims g h)).map (fun sc => sc.url)) := by
  induction scs with
  | nil => intro t h; simp
  | cons sc rest ih =>
    intro t h
    rw [List.foldl_cons, ih]
    unfold registerItemHotkey
    by_cases hcl : claims g h sc = true
    · -- sc claims h: registered (h fresh) or shadowed by the table
      have hcl2 := hcl
      unfold claims at hcl2
      rw [decide_eq_true_eq] at hcl2
      obtain ⟨hsch, hne, hurl, hng⟩ := hcl2
      rw [List.find?_cons_of_pos _ hcl]
      subst hsch
      rw [if_neg (by tauto)]
      by_cases hmem : sc.hotkey ∈ keysOf t
      · rw [if_pos hmem]
        have : ∃ u, tableLookup t sc.hotkey = some u := by
          rcases Option.eq_none_or_eq_some (tableLookup t sc.hotkey) with hnone | hs
          · exact absurd ((tableLookup_eq_none t sc.hotkey).mp hnone) (by simpa using hmem)
          · exact hs
        obtain ⟨u, hu⟩ := this
        rw [hu]
        rfl
      · rw [if_neg hmem, if_neg hng, tableLookup_append]
        have hnone : tableLookup t sc.hotkey = none :=
          (tableLookup_eq_none t sc.hotkey).mpr hmem
        rw [hnone, tableLookup_single_eq]
        rfl
    · -- sc does not claim h: the step cannot bind h
      rw [List.find?_cons_of_neg _ hcl]
      split_ifs with h1 h2 h3
      · rfl
      · rfl
      · rfl
      · rw [tableLookup_append]
        have hne : sc.hotkey ≠ h := by
          intro he
          apply hcl
          unfold claims
          rw [decide_eq_true_eq]
          refine ⟨he, ?_, ?_, ?_⟩
          · intro h0; exact h1 (Or.inl (he.trans h0))
          · intro h0; exact h1 (Or.inr h0)
          · intro h0; exact h3 (he ▸ h0)
        rw [tableLookup_single_ne _ _ _ hne, Option.or_none]

/-- Record X of the C2 scenario, holding hotkey `ctrl+alt+k`. -/
def recX : ShortcutRecord := ⟨"X", "X", "urlX", "ctrl+alt+k", "c", some 1, ""⟩

/-- Record Y of the C2 scenario, declaring the same hotkey as X. -/
def recY : ShortcutRecord := ⟨"Y", "Y", "urlY", "ctrl+alt+k", "c", some 2, ""⟩

/-- C2: after a full reconciliation the binding table maps each hotkey
string to at most one action (its key list has no duplicates), the
first record in iteration order to claim a string wins (the lookup
yields exactly the first claiming record's action), and the records —
including a skipped later duplicate — are not modified by
reconciliation (the registration functions never write to records,
which the embedding reflects by acting on the table alone).  In the
scenario, X binds `ctrl+alt+k` and the later duplicate Y is skipped
while keeping its stored hotkey. -/
theorem c2_reconcile_at_most_one_binding (g : String)
    (scs : List ShortcutRecord) :
    (keysOf (registerAllItemHotkeys g scs)).Nodup ∧
    (∀ h : String,
      tableLookup (registerAllItemHotkeys g scs) h
        = ((scs.find? (claims g h)).map (fun sc => sc.url))) ∧
    registerAllItemHotkeys "" [recX, recY]
      = [("ctrl+alt+k", "urlX")] ∧
    recY.hotkey = "ctrl+alt+k" := by
  refine ⟨registerFold_keys_nodup g scs [] (by simp [keysOf]), ?_, ?_, rfl⟩
  · intro h
    rw [registerAllItemHotkeys, registerFold_lookup]
    rfl
  · rfl

/-- C7: registering a fresh, valid, non-colliding hotkey and then
immediately unregistering it restores the binding table exactly. -/
theorem c7_register_unregister_roundtrip (t : List (String × String))
    (sc : ShortcutRecord) (g : String)
    (h1 : sc.hotkey ≠ "") (h2 : sc.url ≠ "")
    (h3 : sc.hotkey ∉ keysOf t) (h4 : ¬(sc.hotkey = g ∧ g ≠ "")) :
    unregisterHotkey (registerItemHotkey g t sc) sc.hotkey = t := by
  unfold registerItemHotkey
  rw [if_neg (by tauto), if_neg h3, if_neg h4]
  unfold unregisterHotkey
  rw [if_neg]
  · rw [List.eraseP_append_right]
    · simp
    · intro p hp
      simp only [beq_iff_eq]
      intro he
      exact h3 (by simpa [keysOf, he] using List.mem_map_of_mem Prod.fst hp)
  · push_neg
    refine ⟨h1, ?_⟩
    unfold keysOf
    rw [List.map_append]
    simp

/-- Witness for C7: a concrete round trip through a one-entry table. -/
theorem c7_register_unregister_roundtrip_witness :
    unregisterHotkey
      (registerItemHotkey "" [("a", "u1")] recX) recX.hotkey
      = [("a", "u1")] :=
  c7_register_unregister_roundtrip [("a", "u1")] recX ""
    (by decide) (by decide) (by decide) (by decide)

/-! Startup reconciliation order (lines 1230-1231).

`load_data_and_register_hotkeys` ends with
`self.register_all_item_hotkeys()` followed by
`self.register_new_global_show_window_hotkey()`.  To reason about the
order of registry operations we instrument the same fold with an event
trace. -/

/-- Registry operations in the order they are issued. -/
inductive HotkeyEvent where
  | unregItem (h : String)
  | regItem (h : String)
  | regGlobal (h : String)
deriving DecidableEq, Repr

/-- `register_item_hotkey` instrumented with the event trace; the
table transitions exactly as in `registerItemHotkey`. -/
def registerItemHotkeyEv (g : String)
    (st : List (String × String) × List HotkeyEvent)
    (sc : ShortcutRecord) : List (String × String) × List HotkeyEvent :=
  if sc.hotkey = "" ∨ sc.url = "" then st
  else if sc.hotkey ∈ keysOf st.1 then st
  else if sc.hotkey = g ∧ g ≠ "" then st
  else (st.1 ++ [(sc.hotkey, sc.url)], st.2 ++ [HotkeyEvent.regItem sc.hotkey])

/-- The trace of a startup reconciliation with initial tracked table
`t0`: `register_all_item_hotkeys` first unregisters every tracked item
hotkey and re-registers the records, then
`register_new_global_show_window_hotkey` registers the (non-empty)
global binding. -/
def startupReconcileEvents (t0 : List (String × String))
    (scs : List ShortcutRecord) (g : String) : List HotkeyEvent :=
  (scs.foldl (registerItemHotkeyEv g)
      ([], (keysOf t0).map HotkeyEvent.unregItem)).2
    ++ (if g ≠ "" then [HotkeyEvent.regGlobal g] else [])

/-- The hotkey strings newly bound by folding `register_item_hotkey`
over `scs` starting from table `t`, in registration order. -/
def newKeys (g : String) (t : List (String × String)) :
    List ShortcutRecord → List String
  | [] => []
  | sc :: rest =>
    if sc.hotkey = "" ∨ sc.url = "" then newKeys g t rest
    else if sc.hotkey ∈ keysOf t then newKeys g t rest
    else if sc.hotkey = g ∧ g ≠ "" then newKeys g t rest
    else sc.hotkey :: newKeys g (t ++ [(sc.hotkey, sc.url)]) rest

/-- The disjunction of the three skip conditions of
`register_item_hotkey`. -/
def skipsReg (g : String) (t : List (String × String))
    (sc : ShortcutRecord) : Prop :=
  (sc.hotkey = "" ∨ sc.url = "") ∨ sc.hotkey ∈ keysOf t ∨
    (sc.hotkey = g ∧ g ≠ "")

instance (g : String) (t : List (String × String)) (sc : ShortcutRecord) :
    Decidable (skipsReg g t sc) := by
  unfold skipsReg
  infer_instance

lemma registerItemHotkey_skip {g : String} {t : List (String × String)}
    {sc : ShortcutRecord} (h : skipsReg g t sc) :
    registerItemHotkey g t sc = t := by
  unfold registerItemHotkey
  unfold skipsReg at h
  split_ifs with h1 h2 h3 <;> first | rfl | tauto

lemma registerItemHotkey_add {g : String} {t : List (String × String)}
    {sc : ShortcutRecord} (h : ¬ skipsReg g t sc) :
    registerItemHotkey g t sc = t ++ [(sc.hotkey, sc.url)] := by
  unfold registerItemHotkey
  unfold skipsReg at h
  split_ifs with h1 h2 h3 <;> first | rfl | tauto

lemma newKeys_cons_skip {g : String} {t : List (String × String)}
    {sc : ShortcutRecord} (rest : List ShortcutRecord)
    (h : skipsReg g t sc) :
    newKeys g t (sc :: rest) = newKeys g t rest := by
  simp only [newKeys]
  unfold skipsReg at h
  split_ifs with h1 h2 h3 <;> first | rfl | tauto

lemma newKeys_cons_add {g : String} {t : List (String × String)}
    {sc : ShortcutRecord} (rest : List ShortcutRecord)
    (h : ¬ skipsReg g t sc) :
    newKeys g t (sc :: rest)
      = sc.hotkey :: newKeys g (t ++ [(sc.hotkey, sc.url)]) rest := by
  simp only [newKeys]
  unfold skipsReg at h
  split_ifs with h1 h2 h3 <;> first | rfl | tauto

lemma registerItemHotkeyEv_skip {g : String}
    {t : List (String × String)} {evs : List HotkeyEvent}
    {sc : ShortcutRecord} (h : skipsReg g t sc) :
    registerItemHotkeyEv g (t, evs) sc = (t, evs) := by
  unfold registerItemHotkeyEv
  unfold skipsReg at h
  split_ifs with h1 h2 h3 <;> first | rfl | tauto

lemma registerItemHotkeyEv_add {g : String}
    {t : List (String × String)} {evs : List HotkeyEvent}
    {sc : ShortcutRecord} (h : ¬ skipsReg g t sc) :
    registerItemHotkeyEv g (t, evs) sc
      = (t ++ [(sc.hotkey, sc.url)], evs ++ [HotkeyEvent.regItem sc.hotkey]) := by
  unfold registerItemHotkeyEv
  unfold skipsReg at h
  split_ifs with h1 h2 h3 <;> first | rfl | tauto

lemma registerFold_keys_eq_newKeys (g : String) (scs : List ShortcutRecord) :
    ∀ t : List (String × String),
      keysOf (scs.foldl (registerItemHotkey g) t) = keysOf t ++ newKeys g t scs := by
  induction scs with
  | nil => intro t; simp [newKeys]
  | cons sc rest ih =>
    intro t
    rw [List.foldl_cons]
    by_cases h : skipsReg g t sc
    · rw [registerItemHotkey_skip h, newKeys_cons_skip rest h]
      exact ih t
    · rw [registerItemHotkey_add h, newKeys_cons_add rest h, ih]
      unfold keysOf
      rw [List.map_append]
      simp

lemma registerFoldEv_eq (g : String) (scs : List ShortcutRecord) :
    ∀ (t : List (String × String)) (evs : List HotkeyEvent),
      scs.foldl (registerItemHotkeyEv g) (t, evs)
        = (scs.foldl (registerItemHotkey g) t,
           evs ++ (newKeys g t scs).map HotkeyEvent.regItem) := by
  induction scs with
  | nil => intro t evs; simp [newKeys]
  | cons sc rest ih =>
    intro t evs
    rw [List.foldl_cons, List.foldl_cons]
    by_cases h : skipsReg g t sc
    · rw [registerItemHotkeyEv_skip h, registerItemHotkey_skip h,
        newKeys_cons_skip rest h]
      exact ih t evs
    · rw [registerItemHotkeyEv_add h, registerItemHotkey_add h,
        newKeys_cons_add rest h, ih]
      simp

lemma registerFold_global_not_mem (g : String) (hg : g ≠ "")
    (scs : List ShortcutRecord) :
    ∀ t : List (String × String), g ∉ keysOf t →
      g ∉ keysOf (scs.foldl (registerItemHotkey g) t) := by
  induction scs with
  | nil => intro t ht; simpa using ht
  | cons sc rest ih =>
    intro t ht
    rw [List.foldl_cons]
    refine ih _ ?_
    unfold registerItemHotkey
    split_ifs with h1 h2 h3
    · exact ht
    · exact ht
    · exact ht
    · unfold keysOf
      rw [List.map_append]
      simp only [List.map_cons, List.map_nil, List.mem_append,
        List.mem_cons, List.not_mem_nil]
      rintro (hmem | hsc)
      · exact ht hmem
      · rcases hsc with hsc | hsc
        · exact h3 ⟨hsc.symm, hg⟩
        · exact hsc
  -- each registered key either was tracked or claims come from records

lemma registerFold_keys_from_records (g : String)
    (scs : List ShortcutRecord) :
    ∀ t : List (String × String), ∀ h ∈ keysOf (scs.foldl (registerItemHotkey g) t),
      h ∈ keysOf t ∨ ∃ sc ∈ scs, sc.hotkey = h := by
  induction scs with
  | nil => intro t h hh; exact Or.inl hh
  | cons sc rest ih =>
    intro t h hh
    rw [List.foldl_cons] at hh
    rcases ih _ h hh with hmem | ⟨sc2, hsc2, he⟩
    · unfold registerItemHotkey at hmem
      have hsplit : h ∈ keysOf t ∨ h = sc.hotkey := by
        split_ifs at hmem with h1 h2 h3
        · exact Or.inl hmem
        · exact Or.inl hmem
        · exact Or.inl hmem
        · unfold keysOf at hmem
          rw [List.map_append] at hmem
          simp only [List.map_cons, List.map_nil, List.mem_append,
            List.mem_cons, List.not_mem_nil, or_false] at hmem
          exact hmem
      rcases hsplit with hmem2 | he
      · exact Or.inl hmem2
      · exact Or.inr ⟨sc, List.mem_cons_self sc rest, he.symm⟩
    · exact Or.inr ⟨sc2, List.mem_cons_of_mem sc hsc2, he⟩

/-- C5 (amended): a full startup reconciliation first unregisters all
tracked item hotkeys, then attempts each record's hotkey in record-list
order — skipping any hotkey equal to the already-loaded global binding
string or to an already-registered record hotkey — and registers the
global toggle binding last, after the item hotkeys (not before them).
The registered item keys are exactly those of the reconciled table:
duplicate-free, never equal to the global binding, and each stored by
some record. -/
theorem c5_amended_reconcile_order (t0 : List (String × String))
    (scs : List ShortcutRecord) (g : String) (hg : g ≠ "") :
    startupReconcileEvents t0 scs g
      = (keysOf t0).map HotkeyEvent.unregItem
        ++ (keysOf (registerAllItemHotkeys g scs)).map HotkeyEvent.regItem
        ++ [HotkeyEvent.regGlobal g] ∧
    (keysOf (registerAllItemHotkeys g scs)).Nodup ∧
    g ∉ keysOf (registerAllItemHotkeys g scs) ∧
    (∀ h ∈ keysOf (registerAllItemHotkeys g scs), ∃ sc ∈ scs, sc.hotkey = h) := by
  have hkeys : keysOf (registerAllItemHotkeys g scs) = newKeys g [] scs := by
    rw [registerAllItemHotkeys, registerFold_keys_eq_newKeys]
    rfl
  refine ⟨?_, registerFold_keys_nodup g scs [] (by simp [keysOf]), ?_, ?_⟩
  · rw [startupReconcileEvents, registerFoldEv_eq, hkeys, if_pos hg]
  · exact registerFold_global_not_mem g hg scs [] (by simp [keysOf])
  · intro h hh
    rcases registerFold_keys_from_records g scs [] h hh with hfalse | hfound
    · simp [keysOf] at hfalse
    · exact hfound

/-- Witness for the amended C5 theorem, at the one-record startup
scenario with the default global binding. -/
theorem c5_amended_reconcile_order_witness :
    ("ctrl+shift+x" ≠ "") ∧
    startupReconcileEvents [] [recX] "ctrl+shift+x"
      = (keysOf ([] : List (String × String))).map HotkeyEvent.unregItem
        ++ (keysOf (registerAllItemHotkeys "ctrl+shift+x" [recX])).map
            HotkeyEvent.regItem
        ++ [HotkeyEvent.regGlobal "ctrl+shift+x"] :=
  ⟨by decide,
   (c5_amended_reconcile_order [] [recX] "ctrl+shift+x" (by decide)).1⟩

/-- The claimed ordering discipline: every global-binding registration
happens before every record-hotkey registration attempt. -/
def globalRegisteredFirst (evs : List HotkeyEvent) : Prop :=
  ∀ i j : Nat, ∀ e₁ e₂ : HotkeyEvent,
    evs.get? i = some e₁ → evs.get? j = some e₂ →
    (∃ h, e₁ = HotkeyEvent.regGlobal h) →
    (∃ h, e₂ = HotkeyEvent.regItem h) → i < j

/-- C5 counterexample: at startup with one record holding hotkey
`ctrl+alt+k` and global binding `ctrl+shift+x`, the code registers the
record's hotkey first and the global binding second — the global
binding is not registered before the record hotkeys, contradicting the
claimed order. -/
theorem c5_counterexample :
    startupReconcileEvents [] [recX] "ctrl+shift+x"
      = [HotkeyEvent.regItem "ctrl+alt+k",
         HotkeyEvent.regGlobal "ctrl+shift+x"] ∧
    ¬ globalRegisteredFirst (startupReconcileEvents [] [recX] "ctrl+shift+x") := by
  have heq : startupReconcileEvents [] [recX] "ctrl+shift+x"
      = [HotkeyEvent.regItem "ctrl+alt+k",
         HotkeyEvent.regGlobal "ctrl+shift+x"] := by decide
  refine ⟨heq, ?_⟩
  intro hcon
  have h10 := hcon 1 0
    (HotkeyEvent.regGlobal "ctrl+shift+x")
    (HotkeyEvent.regItem "ctrl+alt+k")
    (by rw [heq]; rfl) (by rw [heq]; rfl)
    ⟨"ctrl+shift+x", rfl⟩ ⟨"ctrl+alt+k", rfl⟩
  omega

/-! Application state, persistence and the add/edit operations. -/

/-- The three top-level fields of the persisted settings document. -/
structure SavedData where
  categoriesOrder : List String
  shortcuts : List ShortcutRecord
  globalHotkey : String
deriving DecidableEq, Repr

/-- The mutable state of the main window that the core operations
touch: the record list, the category order, the global toggle hotkey
string, the tracked hotkey table, and the settings file on disk
(`none` while nothing has been written). -/
structure AppState where
  shortcuts : List ShortcutRecord
  categoriesOrder : List String
  globalHotkey : String
  hotkeyActions : List (String × String)
  savedFile : Option SavedData
deriving DecidableEq, Repr

/-- The sort key comparison of `save_data` (line 1262):
`x.get('priority', float('inf'))`, so records without a priority sort
after every record with one. -/
def prioLe (a b : ShortcutRecord) : Bool :=
  match a.priority, b.priority with
  | _, none => true
  | none, some _ => false
  | some x, some y => decide (x ≤ y)

/-- The in-place `self.shortcuts.sort(...)` of `save_data`. -/
def sortShortcuts (l : List ShortcutRecord) : List ShortcutRecord :=
  l.mergeSort prioLe

/-- Line 1259: only user-defined categories are persisted. -/
def userCats (cats : List String) : List String :=
  cats.filter (fun c => decide (c ≠ "All" ∧ c ≠ " + "))

/-- Lines 1249-1273, `save_data`: sort the in-memory shortcut list in
place by priority, then write the three-field document. -/
def saveData (st : AppState) : AppState :=
  let sorted := sortShortcuts st.shortcuts
  { st with
    shortcuts := sorted,
    savedFile := some ⟨userCats st.categoriesOrder, sorted, st.globalHotkey⟩ }

lemma prioLe_trans (a b c : ShortcutRecord) :
    prioLe a b = true → prioLe b c = true → prioLe a c = true := by
  unfold prioLe
  rcases a.priority with _ | x <;> rcases b.priority with _ | y <;>
    rcases c.priority with _ | z <;> simp
  exact le_trans

lemma prioLe_total (a b : ShortcutRecord) :
    (prioLe a b || prioLe b a) = true := by
  unfold prioLe
  rcases a.priority with _ | x <;> rcases b.priority with _ | y <;> simp
  exact le_total x y

/-- C10: every `save_data` call sorts the in-memory shortcut list in
place into ascending priority order (missing priorities sort last,
encoded in `prioLe`) before writing: afterwards the in-memory list is a
`prioLe`-sorted permutation of the previous list, and the persisted
document holds exactly that sorted list. -/
theorem c10_save_sorts_in_memory (st : AppState) :
    (saveData st).shortcuts = sortShortcuts st.shortcuts ∧
    (saveData st).shortcuts.Perm st.shortcuts ∧
    List.Pairwise (fun a b => prioLe a b = true) (saveData st).shortcuts ∧
    (saveData st).savedFile
      = some ⟨userCats st.categoriesOrder, (saveData st).shortcuts,
              st.globalHotkey⟩ :=
  ⟨rfl, List.mergeSort_perm st.shortcuts prioLe,
   List.sorted_mergeSort prioLe_trans prioLe_total st.shortcuts, rfl⟩

/-- The fields the add/edit dialog returns (`dlg.get_data()`). -/
structure DialogData where
  name : String
  url : String
  hotkey : String
  category : String
deriving DecidableEq, Repr

/-- Line 1555-1557: `max(sc.get("priority", 0.0) for sc in shortcuts)`
when the list is non-empty, `0.0` otherwise. -/
def maxPriority (l : List ShortcutRecord) : ℚ :=
  match l.map (fun sc => sc.priority.getD 0) with
  | [] => 0
  | x :: xs => xs.foldl max x

/-- Lines 1532-1591, `add_shortcut` after the dialog is accepted:
assign the next priority, reject on a hotkey conflict with another
record or with the (non-empty) global toggle hotkey before any state
change, otherwise append the record, save and reconcile.  `newId` is
the generated uuid and `fetchedIcon` the favicon fetch result. -/
def addShortcut (st : AppState) (newId : String) (d : DialogData)
    (fetchedIcon : String) : AppState :=
  if d.hotkey ≠ "" ∧ st.shortcuts.any (fun s => s.hotkey == d.hotkey) then st
  else if d.hotkey ≠ "" ∧ d.hotkey = st.globalHotkey ∧ st.globalHotkey ≠ ""
    then st
  else
    let newRec : ShortcutRecord :=
      ⟨newId, d.name, d.url, d.hotkey, d.category,
        some (maxPriority st.shortcuts + 1), fetchedIcon⟩
    let shortcuts1 := st.shortcuts ++ [newRec]
    let cats1 := if d.category = "일반" ∧ "일반" ∉ st.categoriesOrder
      then st.categoriesOrder ++ ["일반"] else st.categoriesOrder
    let st1 := saveData { st with shortcuts := shortcuts1,
                                  categoriesOrder := cats1 }
    { st1 with hotkeyActions :=
        registerAllItemHotkeys st1.globalHotkey st1.shortcuts }

/-- Lines 1782-1785: replace the first record whose id matches (the
loop breaks after the first hit). -/
def replaceById : List ShortcutRecord → String → ShortcutRecord →
    List ShortcutRecord
  | [], _, _ => []
  | s :: rest, i, nd =>
    if s.id = i then nd :: rest else s :: replaceById rest i nd

/-- Lines 1724-1793, `edit_shortcut` after the dialog is accepted: the
conflict checks run only when the hotkey is non-empty and differs from
the record's original hotkey; on conflict the operation aborts with no
state change, otherwise the record is replaced, saved and hotkeys
reconciled. -/
def editShortcut (st : AppState) (editId : String) (d : DialogData)
    (fetchedIcon : String) : AppState :=
  match st.shortcuts.find? (fun s => s.id == editId) with
  | none => st
  | some orig =>
    if d.hotkey ≠ "" ∧ d.hotkey ≠ orig.hotkey ∧
        st.shortcuts.any (fun s => s.hotkey == d.hotkey && s.id != editId)
      then st
    else if d.hotkey ≠ "" ∧ d.hotkey ≠ orig.hotkey ∧
        d.hotkey = st.globalHotkey ∧ st.globalHotkey ≠ "" then st
    else
      let cats1 := if d.category = "일반" ∧ "일반" ∉ st.categoriesOrder
        then st.categoriesOrder ++ ["일반"] else st.categoriesOrder
      let icon := if d.url ≠ orig.url then fetchedIcon else orig.iconPath
      let nd : ShortcutRecord :=
        ⟨editId, d.name, d.url, d.hotkey, d.category, orig.priority, icon⟩
      let shortcuts1 := replaceById st.shortcuts editId nd
      let st1 := saveData { st with shortcuts := shortcuts1,
                                    categoriesOrder := cats1 }
      { st1 with hotkeyActions :=
          registerAllItemHotkeys st1.globalHotkey st1.shortcuts }

/-- C4 (amended): every attempted creation whose non-empty hotkey
equals another record's hotkey or the global toggle hotkey, and every
attempted edit that changes the record's hotkey to such a conflicting
value, is rejected at data-model validation before any registry
reconciliation, leaving the whole state — records, category order,
binding table and persisted file — exactly unchanged.  (An edit that
keeps its hotkey unchanged skips the check; see the
counterexample.) -/
theorem c4_amended_conflict_rejected (st : AppState) (d : DialogData) :
    (∀ (newId icon : String),
      d.hotkey ≠ "" →
      ((∃ s ∈ st.shortcuts, s.hotkey = d.hotkey) ∨ d.hotkey = st.globalHotkey) →
      addShortcut st newId d icon = st) ∧
    (∀ (editId icon : String) (orig : ShortcutRecord),
      st.shortcuts.find? (fun s => s.id == editId) = some orig →
      d.hotkey ≠ "" → d.hotkey ≠ orig.hotkey →
      ((∃ s ∈ st.shortcuts, s.hotkey = d.hotkey ∧ s.id ≠ editId) ∨
        d.hotkey = st.globalHotkey) →
      editShortcut st editId d icon = st) := by
  constructor
  · intro newId icon hne hconf
    unfold addShortcut
    by_cases hany : st.shortcuts.any (fun s => s.hotkey == d.hotkey) = true
    · rw [if_pos ⟨hne, hany⟩]
    · rcases hconf with ⟨s, hs, he⟩ | hg
      · have hany2 : st.shortcuts.any (fun s => s.hotkey == d.hotkey) = true :=
          List.any_eq_true.mpr ⟨s, hs, by rw [beq_iff_eq]; exact he⟩
        exact absurd hany2 hany
      · rw [if_neg (fun hc => hany hc.2),
          if_pos ⟨hne, hg, fun h0 => hne (hg.trans h0)⟩]
  · intro editId icon orig hfind hne hchanged hconf
    unfold editShortcut
    simp only [hfind]
    by_cases hany :
        st.shortcuts.any (fun s => s.hotkey == d.hotkey && s.id != editId) = true
    · rw [if_pos ⟨hne, hchanged, hany⟩]
    · rcases hconf with ⟨s, hs, he, hsid⟩ | hg
      · refine absurd (List.any_eq_true.mpr ⟨s, hs, ?_⟩) hany
        rw [Bool.and_eq_true, beq_iff_eq, bne_iff_ne]
        exact ⟨he, hsid⟩
      · rw [if_neg (fun hc => hany hc.2.2),
          if_pos ⟨hne, hchanged, hg, fun h0 => hne (hg.trans h0)⟩]

/-- A stored record whose hotkey collides with the global toggle
hotkey of `stC4`. -/
def recConf : ShortcutRecord := ⟨"A", "old", "u", "ctrl+shift+x", "c", some 1, "i"⟩

/-- State in which record `A` already stores the global toggle hotkey. -/
def stC4 : AppState := ⟨[recConf], ["c"], "ctrl+shift+x", [], none⟩

/-- The dialog result of an edit of `A` that renames it but keeps its
conflicting hotkey unchanged. -/
def dC4 : DialogData := ⟨"new", "u", "ctrl+shift+x", "c"⟩

/-- The record as it stands after the C4 counterexample edit. -/
def recConfEdited : ShortcutRecord :=
  ⟨"A", "new", "u", "ctrl+shift+x", "c", some 1, "i"⟩

/-- C4 counterexample: record `A` stores a hotkey equal to the global
toggle hotkey, yet an edit of `A` that keeps that hotkey unchanged is
not rejected: the conflict check is skipped and the edit goes through,
changing the state (the record is renamed and the file written). -/
theorem c4_counterexample :
    recConf ∈ stC4.shortcuts ∧
    recConf.hotkey = stC4.globalHotkey ∧
    editShortcut stC4 "A" dC4 "i"
      = ⟨[recConfEdited], ["c"], "ctrl+shift+x", [],
         some ⟨["c"], [recConfEdited], "ctrl+shift+x"⟩⟩ ∧
    editShortcut stC4 "A" dC4 "i" ≠ stC4 := by
  have hfind : stC4.shortcuts.find? (fun s => s.id == "A") = some recConf := by
    rfl
  have hres : editShortcut stC4 "A" dC4 "i"
      = ⟨[recConfEdited], ["c"], "ctrl+shift+x", [],
         some ⟨["c"], [recConfEdited], "ctrl+shift+x"⟩⟩ := by
    unfold editShortcut
    simp only [hfind]
    rw [if_neg (by simp [dC4, recConf]), if_neg (by simp [dC4, recConf])]
    simp [dC4, recConf, recConfEdited, stC4, saveData, sortShortcuts,
      userCats, replaceById, registerAllItemHotkeys, registerItemHotkey,
      keysOf]
  refine ⟨by simp [stC4], rfl, hres, ?_⟩
  rw [hres]
  intro hcon
  have := congrArg AppState.savedFile hcon
  simp [stC4] at this

/-- Witness for the amended C4 theorem: adding a record whose hotkey
equals the stored record's hotkey is rejected and the state is
returned unchanged. -/
theorem c4_amended_conflict_rejected_witness :
    (dC4.hotkey ≠ "") ∧
    addShortcut stC4 "fresh-id" dC4 "icon" = stC4 :=
  ⟨by decide,
   (c4_amended_conflict_rejected stC4 dC4).1 "fresh-id" "icon" (by decide)
     (Or.inl ⟨recConf, by simp [stC4], rfl⟩)⟩

/-! Loading the settings file (lines 1169-1231). -/

/-- A shortcut record as it sits in the JSON document: `id`,
`category` and `priority` keys may be missing. -/
structure RawShortcut where
  id : Option String
  name : String
  url : String
  hotkey : String
  category : Option String
  priority : Option ℚ
  iconPath : String
deriving DecidableEq, Repr

/-- The parsed settings document; each top-level key may be missing
(`data.get(...)` defaults apply). -/
structure RawSettings where
  categoriesOrder : Option (List String)
  shortcuts : Option (List RawShortcut)
  globalHotkey : Option String
deriving Repr

/-- The state of the settings file as the loader finds it. -/
inductive FileState where
  | missing
  | unreadable
  | corruptJson
  | parsed (d : RawSettings)

/-- Lines 1193-1206: the per-record integrity migration (assign a
fresh id when missing or empty, default the category to the first
loaded category or `일반`, default the priority to `idx + 1`). -/
def migrateShortcut (freshId : Nat → String) (cats0 : List String)
    (idx : Nat) (r : RawShortcut) : ShortcutRecord :=
  { id := match r.id with
      | some i => if i = "" then freshId idx else i
      | none => freshId idx
    name := r.name
    url := r.url
    hotkey := r.hotkey
    category := r.category.getD (cats0.headD "일반")
    priority := some (r.priority.getD ((idx : ℚ) + 1))
    iconPath := r.iconPath }

/-- Lines 1182-1227 of `load_data_and_register_hotkeys`: a total
function — every failure (missing file, unreadable file, corrupt JSON)
is caught by the code's `except` branch and never escapes the loader.
On failure the records and categories are reset to `[]` and the global
hotkey to its default; afterwards, when both lists are empty, the
single default category `기본` is inserted (line 1224) and reserved
names are filtered out (line 1227).  `freshId` supplies the uuids for
records missing an id. -/
def loadData (fs : FileState) (freshId : Nat → String) : SavedData :=
  let base : SavedData :=
    match fs with
    | FileState.parsed d =>
      let cats := d.categoriesOrder.getD []
      ⟨cats,
       (d.shortcuts.getD []).mapIdx (fun i r => migrateShortcut freshId cats i r),
       d.globalHotkey.getD "ctrl+shift+x"⟩
    | _ => ⟨[], [], "ctrl+shift+x"⟩
  let cats1 := if base.categoriesOrder = [] ∧ base.shortcuts = []
    then ["기본"] else base.categoriesOrder
  ⟨cats1.filter (fun c => decide (c ≠ "All" ∧ c ≠ " + ")),
   base.shortcuts, base.globalHotkey⟩

/-- Fresh-id supply used in concrete statements. -/
def defaultFreshId : Nat → String := fun _ => ""

/-- C8 (amended): for a missing, unreadable or corrupt settings file
the loader (a total function — no exception escapes) yields an empty
record list, the default global hotkey `ctrl+shift+x`, and a category
order consisting of the single default category `기본` inserted by the
empty-state fallback — not an empty category order. -/
theorem c8_amended_load_defaults (fs : FileState) (freshId : Nat → String)
    (h : fs = FileState.missing ∨ fs = FileState.unreadable ∨
      fs = FileState.corruptJson) :
    loadData fs freshId = ⟨["기본"], [], "ctrl+shift+x"⟩ := by
  rcases h with h | h | h <;> subst h <;> rfl

/-- Witness for the amended C8 theorem at the missing-file state. -/
theorem c8_amended_load_defaults_witness :
    (FileState.missing = FileState.missing ∨
      FileState.missing = FileState.unreadable ∨
      FileState.missing = FileState.corruptJson) ∧
    loadData FileState.missing defaultFreshId
      = ⟨["기본"], [], "ctrl+shift+x"⟩ :=
  ⟨Or.inl rfl,
   c8_amended_load_defaults FileState.missing defaultFreshId (Or.inl rfl)⟩

/-- C8 counterexample: after loading with the file missing the
category order is `["기본"]`, not the empty list the claim states; the
record list and the global hotkey do take their defaults. -/
theorem c8_counterexample :
    (loadData FileState.missing defaultFreshId).categoriesOrder = ["기본"] ∧
    (loadData FileState.missing defaultFreshId).categoriesOrder ≠ [] ∧
    (loadData FileState.missing defaultFreshId).shortcuts = [] ∧
    (loadData FileState.missing defaultFreshId).globalHotkey
      = "ctrl+shift+x" := by
  refine ⟨rfl, ?_, rfl, rfl⟩
  intro hcon
  have h : (loadData FileState.missing defaultFreshId).categoriesOrder
      = ["기본"] := rfl
  rw [h] at hcon
  exact List.cons_ne_nil _ _ hcon

/-! Debounce (lines 38, 853-867, 1851-1858). -/

/-- `HOTKEY_DEBOUNCE_TIME = 0.3` seconds. -/
def HOTKEY_DEBOUNCE_TIME : ℚ := 3/10

/-- Lines 860-865, `_on_global_show_hotkey_triggered`: forward (emit
the toggle signal) only when more than the debounce interval has
passed since the last accepted trigger, updating the timestamp; else
drop the event.  The clock value is the trigger's `time.time()`. -/
def globalHotkeyStep (last t : ℚ) : ℚ × Bool :=
  if HOTKEY_DEBOUNCE_TIME < t - last then (t, true) else (last, false)

/-- Number of forwarded UI actions for a sequence of global-toggle
trigger times, starting from timestamp `last`. -/
def globalForwardCount : ℚ → List ℚ → Nat
  | _, [] => 0
  | last, t :: ts =>
    let s := globalHotkeyStep last t
    (if s.2 then 1 else 0) + globalForwardCount s.1 ts

/-- Line 1853: the per-item hotkey callback
`lambda u=url_to_open: webbrowser.open(u)` — it consults no clock and
opens the url on every trigger. -/
def itemHotkeyCallback (url : String) (_t : ℚ) : Option String := some url

/-- The actions performed for a sequence of item-hotkey trigger
times: one per trigger, unconditionally. -/
def itemForwardedActions (url : String) (ts : List ℚ) : List String :=
  ts.filterMap (itemHotkeyCallback url)

lemma globalForwardCount_nil (last : ℚ) : globalForwardCount last [] = 0 :=
  rfl

lemma globalForwardCount_cons (last t : ℚ) (ts : List ℚ) :
    globalForwardCount last (t :: ts)
      = if HOTKEY_DEBOUNCE_TIME < t - last
          then 1 + globalForwardCount t ts
          else globalForwardCount last ts := by
  show (fun s => (if s.2 then 1 else 0) + globalForwardCount s.1 ts)
      (globalHotkeyStep last t) = _
  unfold globalHotkeyStep
  split_ifs with h <;> simp

/-- C6 (amended): only the global toggle binding is debounced (0.3 s,
measured with `time.time()`): after an accepted trigger at `t₁`, a
second trigger within the interval is dropped (one forwarded action)
and a second trigger after more than the interval is forwarded (two
actions); per-item hotkey triggers have no debounce — every trigger
performs its action. -/
theorem c6_amended_debounce (last t₁ t₂ : ℚ)
    (h1 : HOTKEY_DEBOUNCE_TIME < t₁ - last) :
    (t₂ - t₁ ≤ HOTKEY_DEBOUNCE_TIME → globalForwardCount last [t₁, t₂] = 1) ∧
    (HOTKEY_DEBOUNCE_TIME < t₂ - t₁ → globalForwardCount last [t₁, t₂] = 2) ∧
    (∀ (url : String) (ts : List ℚ),
      (itemForwardedActions url ts).length = ts.length) := by
  refine ⟨?_, ?_, ?_⟩
  · intro h2
    rw [globalForwardCount_cons, if_pos h1, globalForwardCount_cons,
      if_neg (not_lt.mpr h2), globalForwardCount_nil]
  · intro h2
    rw [globalForwardCount_cons, if_pos h1, globalForwardCount_cons,
      if_pos h2, globalForwardCount_nil]
  · intro url ts
    induction ts with
    | nil => rfl
    | cons t rest ih =>
      simp only [itemForwardedActions, List.filterMap_cons,
        itemHotkeyCallback, List.length_cons] at ih ⊢
      rw [ih]

/-- Witness for the amended C6 theorem at `last = 0`, triggers at `1`
and `2`. -/
theorem c6_amended_debounce_witness :
    (HOTKEY_DEBOUNCE_TIME < (1:ℚ) - 0) ∧
    (HOTKEY_DEBOUNCE_TIME < (2:ℚ) - 1 → globalForwardCount 0 [1, 2] = 2) :=
  ⟨by norm_num [HOTKEY_DEBOUNCE_TIME],
   (c6_amended_debounce 0 1 2 (by norm_num [HOTKEY_DEBOUNCE_TIME])).2.1⟩

/-- C6 counterexample: two item-hotkey triggers separated by `0.1` —
less than the debounce interval — still perform two actions, not one:
item hotkeys are not debounced. -/
theorem c6_counterexample :
    ((1:ℚ)/10 - 0 < HOTKEY_DEBOUNCE_TIME) ∧
    (itemForwardedActions "u" [0, 1/10]).length = 2 ∧
    (itemForwardedActions "u" [0, 1/10]).length ≠ 1 := by
  refine ⟨by norm_num [HOTKEY_DEBOUNCE_TIME], rfl, by decide⟩

end UrlShortCut
